import Mathlib

/-!
# Verification of the querypanel/node-sdk SQL safety and dialect adapter layer

This file gives a shallow embedding, in Lean 4, of the SQL-safety core of the
querypanel node SDK: the tenant-isolation rewriter of
`src/core/query-engine.ts`, the table-reference extraction and allow-list
validation of `src/adapters/postgres.ts` and `src/adapters/clickhouse.ts`,
the named-to-positional parameter conversion of the Postgres adapter, the
`ask` retry loop and `anonymizeResults` of the query route, and the
`QueryEngine` database registry.  SQL text is modelled as `List Char`;
JavaScript objects used as string-keyed records are modelled as association
lists in insertion order; JavaScript `undefined` is modelled with `Option`.
Theorems about the spec's claims follow the definitions.
-/

set_option maxHeartbeats 1000000

/-- JavaScript `\s` (whitespace) character class, restricted to the code
points that can appear here; matches `String.prototype.trim` as well. -/
def isJsSpace (c : Char) : Bool :=
  c = ' ' || c = '\t' || c = '\n' || c = '\r' || c = '\x0b' || c = '\x0c' ||
  c = ' ' || c = '﻿'

/-- `[a-zA-Z_]`, the identifier-start class used by both adapters' regexes. -/
def isIdentStart (c : Char) : Bool :=
  ('a' ≤ c && c ≤ 'z') || ('A' ≤ c && c ≤ 'Z') || c = '_'

/-- `[a-zA-Z0-9_]`, the identifier-continuation class (also JS `\w`). -/
def isIdentChar (c : Char) : Bool :=
  isIdentStart c || ('0' ≤ c && c ≤ '9')

/-- `[0-9]`, JS `\d`. -/
def isDigitChar (c : Char) : Bool :=
  '0' ≤ c && c ≤ '9'

/-- ASCII lowercasing of a character, as JS `toLowerCase` does on ASCII. -/
def lowChar (c : Char) : Char := c.toLower

/-- Lowercase a SQL text (JS `String.prototype.toLowerCase`, ASCII range). -/
def lowText (s : List Char) : List Char := s.map lowChar

/-- JS `String.prototype.includes`: does `needle` occur contiguously in
`hay`? -/
def occursIn (needle : List Char) : List Char → Bool
  | [] => needle.isEmpty
  | c :: rest => needle.isPrefixOf (c :: rest) || occursIn needle rest

/-- JS `String.prototype.trim`. -/
def trimText (s : List Char) : List Char :=
  ((s.dropWhile isJsSpace).reverse.dropWhile isJsSpace).reverse

/-- Parameter values, after TS
`string | number | boolean | string[] | number[]` of
`src/core/query-engine.ts` (numbers modelled exactly). -/
inductive PValue where
  | str (s : String)
  | num (n : Int)
  | bool (b : Bool)
  | strArr (xs : List String)
  | numArr (xs : List Int)
deriving DecidableEq, Repr

/-- A JS object used as a string-keyed record, in insertion order with
distinct keys (`ParamRecord` in `src/core/query-engine.ts`). -/
def ParamRecord : Type := List (String × PValue)

instance : DecidableEq ParamRecord := by
  unfold ParamRecord; infer_instance

/-- JS property read `obj[k]` (`none` models `undefined`). -/
def recLookup (ps : ParamRecord) (k : String) : Option PValue :=
  match ps with
  | [] => none
  | (k', v) :: rest => if k' = k then some v else recLookup rest k

/-- JS property write `obj[k] = v`: overwrite in place if the key exists,
otherwise append (JS objects keep the original key position on update). -/
def recSet (ps : ParamRecord) (k : String) (v : PValue) : ParamRecord :=
  match ps with
  | [] => [(k, v)]
  | (k', v') :: rest =>
    if k' = k then (k', v) :: rest else (k', v') :: recSet rest k v

/-- The two dialect tags of `DatabaseDialect`. -/
inductive Dialect where
  | postgres
  | clickhouse
deriving DecidableEq, Repr

/-- `DatabaseMetadata` of `src/core/query-engine.ts` (the fields the safety
layer reads; `name`/`description`/`tags` are carried but never branched on,
so they are omitted). -/
structure DbMetadata where
  dialect : Dialect
  tenantFieldName : Option String
  tenantFieldType : Option String
  enforceTenantIsolation : Option Bool
deriving DecidableEq, Repr

/-- Does `\bwhere\b` (case-insensitive) match at the head of `s`, given the
previous character `prev` (`none` at the start of the text)?  JS `\b` holds
between a word character (`[A-Za-z0-9_]`) and a non-word character. -/
def whereHere (prev : Option Char) (s : List Char) : Bool :=
  match s with
  | a :: b :: c :: d :: e :: rest =>
    lowChar a = 'w' && lowChar b = 'h' && lowChar c = 'e' && lowChar d = 'r' &&
    lowChar e = 'e' &&
    (match prev with | none => true | some p => !isIdentChar p) &&
    (match rest with | [] => true | n :: _ => !isIdentChar n)
  | _ => false

/-- Locate the first `\bwhere\b` (case-insensitive) occurrence: returns the
text before the keyword, the five matched characters (original case), and
the text after them. -/
def findWhereSplit (prev : Option Char) : List Char →
    Option (List Char × List Char × List Char)
  | [] => none
  | c :: rest =>
    if whereHere prev (c :: rest) then
      some ([], (c :: rest).take 5, (c :: rest).drop 5)
    else
      match findWhereSplit (some c) rest with
      | some (pre, m, post) => some (c :: pre, m, post)
      | none => none

/-- JS `/\bwhere\b/i.test(sql)`. -/
def whereKeywordFound (sql : List Char) : Bool :=
  (findWhereSplit none sql).isSome

/-- `QueryEngine.ensureTenantIsolation` of `src/core/query-engine.ts`
(lines 128-163), with the mutation of the caller's `params` object made
explicit by returning the updated record alongside the SQL text.  The
function: returns unchanged when no tenant field is configured (absent or
empty string, both falsy) or isolation is exactly `false`; otherwise first
writes `params[tenantField] = tenantId`, then returns the SQL unchanged if
the field name already occurs case-insensitively; otherwise synthesizes the
dialect predicate and splices it after the first `\bwhere\b` (joined with
`AND `) or appends a fresh `WHERE` clause. -/
def ensureTenantIsolation (sql : List Char) (params : ParamRecord)
    (metadata : DbMetadata) (tenantId : String) : List Char × ParamRecord :=
  match metadata.tenantFieldName with
  | none => (sql, params)
  | some tenantField =>
    if tenantField = "" || metadata.enforceTenantIsolation = some false then
      (sql, params)
    else
      let params' := recSet params tenantField (PValue.str tenantId)
      if occursIn (lowText tenantField.toList) (lowText sql) then
        (sql, params')
      else
        let tenantPredicate : List Char :=
          match metadata.dialect with
          | Dialect.clickhouse =>
            tenantField.toList ++ " = \x7b".toList ++ tenantField.toList ++
              ":".toList ++
              ((metadata.tenantFieldType.getD "String").toList) ++
              "\x7d".toList
          | Dialect.postgres =>
            tenantField.toList ++ " = '".toList ++ tenantId.toList ++
              "'".toList
        match findWhereSplit none sql with
        | some (pre, m, post) =>
          (pre ++ m ++ " ".toList ++ tenantPredicate ++ " AND ".toList ++
            post, params')
        | none =>
          (sql ++ " WHERE ".toList ++ tenantPredicate, params')

example :
    (ensureTenantIsolation "SELECT * FROM users".toList []
      { dialect := Dialect.postgres, tenantFieldName := some "tenant_id",
        tenantFieldType := none, enforceTenantIsolation := none }
      "t-123").1 =
    "SELECT * FROM users WHERE tenant_id = 't-123'".toList := by decide

example :
    (ensureTenantIsolation "SELECT * FROM users WHERE active = true".toList
      []
      { dialect := Dialect.postgres, tenantFieldName := some "tenant_id",
        tenantFieldType := none, enforceTenantIsolation := some true }
      "tenant-123").1 =
    "SELECT * FROM users WHERE tenant_id = 'tenant-123' AND  active = true".toList := by
  decide

/-- Case-insensitive match of an ASCII keyword (supplied lowercase) at the
head of the text; returns the rest on success. -/
def matchKeywordCI (kw : List Char) (s : List Char) : Option (List Char) :=
  match kw, s with
  | [], rest => some rest
  | k :: ks, c :: cs => if lowChar c = k then matchKeywordCI ks cs else none
  | _ :: _, [] => none

/-- Greedy `\s+` (at least one whitespace character). -/
def dropSpaces1 (s : List Char) : Option (List Char) :=
  match s with
  | c :: cs => if isJsSpace c then some (cs.dropWhile isJsSpace) else none
  | [] => none

/-- Greedy `[a-zA-Z_][a-zA-Z0-9_]*`; returns the identifier and the rest. -/
def takeIdent (s : List Char) : Option (List Char × List Char) :=
  match s with
  | c :: cs =>
    if isIdentStart c then
      some (c :: cs.takeWhile isIdentChar, cs.dropWhile isIdentChar)
    else none
  | [] => none

/-- Identifier followed by a greedy optional closing quote character. -/
def identWithCloseQuote (quotes : List Char) (s : List Char) :
    Option (List Char × List Char) :=
  match takeIdent s with
  | none => none
  | some (idt, rest) =>
    match rest with
    | q :: rs => if quotes.contains q then some (idt ++ [q], rs)
                 else some (idt, rest)
    | [] => some (idt, [])

/-- The table-token part `[q]?[a-zA-Z_][a-zA-Z0-9_]*[q]?` of the adapters'
regexes (`q` the dialect's quote set).  A leading quote is consumed greedily;
if no identifier follows it, backtracking to the unquoted branch would have
to match the quote character as `[a-zA-Z_]`, which always fails. -/
def takeTableToken (quotes : List Char) (s : List Char) :
    Option (List Char × List Char) :=
  match s with
  | c :: cs =>
    if quotes.contains c then
      match identWithCloseQuote quotes cs with
      | some (tok, rest) => some (c :: tok, rest)
      | none => none
    else identWithCloseQuote quotes s
  | [] => none

/-- The table token with `none` schema. -/
def takeTableNoSchema (quotes : List Char) (s : List Char) :
    Option (Option (List Char) × List Char × List Char) :=
  (takeTableToken quotes s).map (fun p => (none, p.1, p.2))

/-- `(?:([a-zA-Z_][a-zA-Z0-9_]*)\.)?` followed by the table token, with the
regex backtracking: if the dotted-schema branch fails to complete, the
optional group is dropped and the table token is matched directly. -/
def takeSchemaTable (quotes : List Char) (s : List Char) :
    Option (Option (List Char) × List Char × List Char) :=
  match takeIdent s with
  | some (sch, rest) =>
    match rest with
    | '.' :: rs =>
      (match takeTableToken quotes rs with
       | some (tok, rest') => some (some sch, tok, rest')
       | none => takeTableNoSchema quotes s)
    | _ => takeTableNoSchema quotes s
  | none => takeTableNoSchema quotes s

/-- `(?:QUALIFIER\s+)?` followed by the schema/table part, with regex
backtracking: the qualifier branch (`ONLY` for Postgres, `FINAL` for
ClickHouse) is tried first and abandoned if the rest cannot match. -/
def takeQualifiedTable (qualifier quotes : List Char) (s : List Char) :
    Option (Option (List Char) × List Char × List Char) :=
  match matchKeywordCI qualifier s with
  | some afterQ =>
    (match dropSpaces1 afterQ with
     | some afterSp =>
       (match takeSchemaTable quotes afterSp with
        | some r => some r
        | none => takeSchemaTable quotes s)
     | none => takeSchemaTable quotes s)
  | none => takeSchemaTable quotes s

/-- One attempted match of the adapters' table pattern
`(?:FROM|JOIN)\s+(?:QUALIFIER\s+)?(?:schema\.)?token` at the head of `s`
(flag `i`); returns (schema group, raw token with quotes, rest after the
match, i.e. the regex `lastIndex`). -/
def matchFromJoinAt (qualifier quotes : List Char) (s : List Char) :
    Option (Option (List Char) × List Char × List Char) :=
  match (match matchKeywordCI "from".toList s with
         | some r => some r
         | none => matchKeywordCI "join".toList s) with
  | none => none
  | some afterKw =>
    match dropSpaces1 afterKw with
    | none => none
    | some afterSp => takeQualifiedTable qualifier quotes afterSp

/-- `String.prototype.matchAll` over the table pattern: successive
non-overlapping leftmost matches, resuming after each match.  The fuel is
the text length; every match consumes at least six characters, so the scan
always terminates within it. -/
def scanRefsAux (qualifier quotes : List Char) :
    Nat → List Char → List (Option (List Char) × List Char)
  | 0, _ => []
  | _, [] => []
  | fuel + 1, c :: cs =>
    match matchFromJoinAt qualifier quotes (c :: cs) with
    | some (sch, tok, rest) =>
      (sch, tok) :: scanRefsAux qualifier quotes fuel rest
    | none => scanRefsAux qualifier quotes fuel cs

/-- All raw (schema group, quoted token) matches of the table pattern. -/
def scanRefs (qualifier quotes : List Char) (sql : List Char) :
    List (Option (List Char) × List Char) :=
  scanRefsAux qualifier quotes (sql.length + 1) sql

/-- The Postgres regex quote set `["']`. -/
def pgQuotes : List Char := ['\x22', '\x27']

/-- The ClickHouse regex quote set with backticks. -/
def chQuotes : List Char := ['\x22', '\x27', '\x60']

/-- `^[A-Za-z_][A-Za-z0-9_]*$` (`isSafeIdentifier` in
`src/adapters/postgres.ts`). -/
def isSafeIdentifier (s : List Char) : Bool :=
  match s with
  | c :: cs => isIdentStart c && cs.all isIdentChar
  | [] => false

/-- JS `String.prototype.split` on a single separator character (keeps
empty segments; splitting the empty string yields one empty segment). -/
def splitOnChar (sep : Char) : List Char → List (List Char)
  | [] => [[]]
  | c :: cs =>
    let r := splitOnChar sep cs
    if c = sep then [] :: r
    else
      match r with
      | h :: t => (c :: h) :: t
      | [] => [[c]]

/-- `tableKey` of `src/adapters/postgres.ts`. -/
def pgTableKey (schema table : String) : String := schema ++ "." ++ table

/-- `normalizeTableFilter` of `src/adapters/postgres.ts`: trim, split on
dots, take the last segment as table and the one before it (or the default
schema) as schema, drop unsafe identifiers, and deduplicate by key. -/
def pgNormalizeAux (defaultSchema : String) (seen : List String) :
    List String → List (String × String)
  | [] => []
  | raw :: rest =>
    if raw = "" then pgNormalizeAux defaultSchema seen rest
    else
      let trimmed := trimText raw.toList
      if trimmed = [] then pgNormalizeAux defaultSchema seen rest
      else
        let revParts := (splitOnChar '.' trimmed).reverse
        let table := String.mk (revParts.headD [])
        let schema :=
          match revParts with
          | _ :: s :: _ => String.mk s
          | _ => defaultSchema
        if isSafeIdentifier schema.toList && isSafeIdentifier table.toList then
          let key := pgTableKey schema table
          if seen.contains key then pgNormalizeAux defaultSchema seen rest
          else (schema, table) :: pgNormalizeAux defaultSchema (key :: seen) rest
        else pgNormalizeAux defaultSchema seen rest

/-- Entry point of `normalizeTableFilter` (Postgres adapter). -/
def pgNormalizeTableFilter (tables : List String) (defaultSchema : String) :
    List (String × String) :=
  pgNormalizeAux defaultSchema [] tables

/-- `normalizeTableFilter` of `src/adapters/clickhouse.ts`: bare table
names, last dot segment, deduplicated, no safety check. -/
def chNormalizeAux (seen : List String) : List String → List String
  | [] => []
  | raw :: rest =>
    if raw = "" then chNormalizeAux seen rest
    else
      let trimmed := trimText raw.toList
      if trimmed = [] then chNormalizeAux seen rest
      else
        let tableName := String.mk ((splitOnChar '.' trimmed).reverse.headD [])
        if tableName = "" || seen.contains tableName then chNormalizeAux seen rest
        else tableName :: chNormalizeAux (tableName :: seen) rest

/-- Entry point of `normalizeTableFilter` (ClickHouse adapter). -/
def chNormalizeTableFilter (tables : List String) : List String :=
  chNormalizeAux [] tables

/-- Table references produced by `PostgresAdapter.validateQueryTables`:
schema group (or the default schema) plus the quote-stripped token. -/
def pgExtractRefs (defaultSchema : String) (sql : List Char) :
    List (String × String) :=
  (scanRefs "only".toList pgQuotes sql).filterMap (fun m =>
    let schema := match m.1 with
                  | some s => String.mk s
                  | none => defaultSchema
    let table := String.mk (m.2.filter (fun c => !(c = '\x27' || c = '\x22')))
    if table = "" then none else some (schema, table))

/-- Table references produced by `ClickHouseAdapter.validateQueryTables`:
bare quote/backtick-stripped tokens. -/
def chExtractRefs (sql : List Char) : List String :=
  (scanRefs "final".toList chQuotes sql).filterMap (fun m =>
    let table := String.mk (m.2.filter (fun c =>
      !(c = '\x27' || c = '\x22' || c = '\x60')))
    if table = "" then none else some table)

/-- The allowed-tables error message of the Postgres adapter. -/
def pgDenyMsg (schema table : String) : String :=
  "Query references table \x22" ++ schema ++ "." ++ table ++
    "\x22 which is not in the allowed tables list"

/-- The allowed-tables error message of the ClickHouse adapter. -/
def chDenyMsg (table : String) : String :=
  "Query references table \x22" ++ table ++
    "\x22 which is not in the allowed tables list"

/-- The loop body of `PostgresAdapter.validateQueryTables`: walk the
extracted references and throw at the first one missing from the set. -/
def pgCheckRefs (allowedKeys : List String) :
    List (String × String) → Except String Unit
  | [] => .ok ()
  | (schema, table) :: rest =>
    if allowedKeys.contains (pgTableKey schema table) then
      pgCheckRefs allowedKeys rest
    else .error (pgDenyMsg schema table)

/-- The loop body of `ClickHouseAdapter.validateQueryTables`. -/
def chCheckRefs (allowed : List String) : List String → Except String Unit
  | [] => .ok ()
  | table :: rest =>
    if allowed.contains table then chCheckRefs allowed rest
    else .error (chDenyMsg table)

/-- Adapter-level state of `PostgresAdapter` relevant to validation: the
default schema and the (already normalized) optional allow-list, as built
by the constructor. -/
structure PgConfig where
  defaultSchema : String
  allowedTables : Option (List (String × String))
deriving DecidableEq, Repr

/-- The `PostgresAdapter` constructor's handling of its options (defaults
`public` and normalization of a supplied allow-list; an absent option leaves
the field unset). -/
def pgMkConfig (defaultSchemaOpt : Option String)
    (allowedTablesOpt : Option (List String)) : PgConfig :=
  let ds := defaultSchemaOpt.getD "public"
  { defaultSchema := ds,
    allowedTables := allowedTablesOpt.map (fun ts => pgNormalizeTableFilter ts ds) }

/-- Adapter-level state of `ClickHouseAdapter` relevant to validation. -/
structure ChConfig where
  allowedTables : Option (List String)
deriving DecidableEq, Repr

/-- The `ClickHouseAdapter` constructor's handling of its allow-list
option. -/
def chMkConfig (allowedTablesOpt : Option (List String)) : ChConfig :=
  { allowedTables := allowedTablesOpt.map chNormalizeTableFilter }

/-- `PostgresAdapter.validateQueryTables` (lines 101-127): no-op when the
allow-list is unset or empty, otherwise check every extracted reference
against the key set. -/
def pgValidateQueryTables (cfg : PgConfig) (sql : List Char) :
    Except String Unit :=
  match cfg.allowedTables with
  | none => .ok ()
  | some ts =>
    if ts.length = 0 then .ok ()
    else pgCheckRefs (ts.map (fun t => pgTableKey t.1 t.2))
      (pgExtractRefs cfg.defaultSchema sql)

/-- `ClickHouseAdapter.validateQueryTables` (lines 207-229). -/
def chValidateQueryTables (cfg : ChConfig) (sql : List Char) :
    Except String Unit :=
  match cfg.allowedTables with
  | none => .ok ()
  | some ts =>
    if ts.length = 0 then .ok ()
    else chCheckRefs ts (chExtractRefs sql)

example :
    pgExtractRefs "public" "SELECT * FROM users JOIN orders ON users.id = orders.user_id".toList =
    [("public", "users"), ("public", "orders")] := by
  decide

example :
    pgExtractRefs "public" "SELECT EXTRACT(MONTH FROM created_at) AS month FROM sales".toList =
    [("public", "created_at"), ("public", "sales")] := by decide

example :
    chExtractRefs "SELECT * FROM analytics.events FINAL x".toList =
    ["events"] := by decide

/-- Observable steps of one execution request, in order: the tenant
rewrite performed by the engine, the adapter-internal allow-list check, and
an invocation of the externally supplied low-level client with the SQL text
it receives. -/
inductive Step where
  | tenantRewrite (inp out : List Char)
  | allowCheck (sql : List Char)
  | clientCall (sql : List Char)
deriving DecidableEq, Repr

/-- `PostgresAdapter.execute` (lines 81-99), as a step trace plus outcome:
when an allow-list was configured, run `validateQueryTables` first and
propagate its error; otherwise (and on success) invoke the client with the
SQL unchanged.  The named-to-positional parameter conversion it also
performs is total and modelled separately by
`convertNamedToPositionalParams`; the external client is an oracle. -/
def pgExecuteT (cfg : PgConfig) (client : List Char → Except String Unit)
    (sql : List Char) : List Step × Except String Unit :=
  match cfg.allowedTables with
  | some _ =>
    (match pgValidateQueryTables cfg sql with
     | .error e => ([Step.allowCheck sql], .error e)
     | .ok _ => ([Step.allowCheck sql, Step.clientCall sql], client sql))
  | none => ([Step.clientCall sql], client sql)

/-- `PostgresAdapter.validate` (lines 172-182): an `EXPLAIN`-prefixed
client call, with no allow-list check. -/
def pgValidateT (client : List Char → Except String Unit) (sql : List Char) :
    List Step × Except String Unit :=
  ([Step.clientCall ("EXPLAIN ".toList ++ sql)],
    client ("EXPLAIN ".toList ++ sql))

/-- `ClickHouseAdapter.execute` (lines 88-107), as a step trace plus
outcome. -/
def chExecuteT (cfg : ChConfig) (client : List Char → Except String Unit)
    (sql : List Char) : List Step × Except String Unit :=
  match cfg.allowedTables with
  | some _ =>
    (match chValidateQueryTables cfg sql with
     | .error e => ([Step.allowCheck sql], .error e)
     | .ok _ => ([Step.allowCheck sql, Step.clientCall sql], client sql))
  | none => ([Step.clientCall sql], client sql)

/-- `ClickHouseAdapter.validate` (lines 109-121). -/
def chValidateT (client : List Char → Except String Unit) (sql : List Char) :
    List Step × Except String Unit :=
  ([Step.clientCall ("EXPLAIN ".toList ++ sql)],
    client ("EXPLAIN ".toList ++ sql))

/-- `QueryEngine.validateAndExecute` (lines 64-88) against a Postgres
adapter: rewrite for tenant isolation when metadata is attached, then the
adapter `validate` (EXPLAIN dry-run), then the adapter `execute`; a failed
validate short-circuits.  Returns the ordered step trace and the outcome. -/
def validateAndExecuteT (metadata : Option DbMetadata) (cfg : PgConfig)
    (client : List Char → Except String Unit) (sql : List Char)
    (params : ParamRecord) (tenantId : String) :
    List Step × Except String Unit :=
  let rewritten :=
    match metadata with
    | some md => ensureTenantIsolation sql params md tenantId
    | none => (sql, params)
  let finalSql := rewritten.1
  let rewriteSteps :=
    match metadata with
    | some _ => [Step.tenantRewrite sql finalSql]
    | none => []
  let validated := pgValidateT client finalSql
  match validated.2 with
  | .error e => (rewriteSteps ++ validated.1, .error e)
  | .ok _ =>
    let executed := pgExecuteT cfg client finalSql
    (rewriteSteps ++ validated.1 ++ executed.1, executed.2)

/-- `^\d+$` (the numeric-key test of `convertNamedToPositionalParams`). -/
def isNumericKey (k : String) : Bool :=
  !k.toList.isEmpty && k.toList.all isDigitChar

/-- `Number.parseInt(k, 10)` on an all-digit key (exact; JS float
imprecision beyond 2^53 is out of scope of this model). -/
def parseDigits (k : String) : Nat :=
  k.toList.foldl (fun acc c => acc * 10 + (c.toNat - '0'.toNat)) 0

/-- Stable insertion sort, ascending (matches the stable JS `sort` with
comparator `(a, b) => a - b`): an element is inserted after all elements it
does not strictly precede. -/
def insortBy (lt : α → α → Bool) : List α → List α
  | [] => []
  | x :: xs => insertBy lt x (insortBy lt xs)
where
  insertBy (lt : α → α → Bool) (x : α) : List α → List α
    | [] => [x]
    | y :: ys => if lt y x then y :: insertBy lt x ys else x :: y :: ys

/-- UTF-16 code-unit comparison of the default JS `sort()` (code points
suffice here). -/
def lexLt (a b : String) : Bool :=
  decide (a < b)

/-- Is the key an array-index key of a JS object (canonical decimal,
below 2^32 - 1)?  Such keys enumerate first, in ascending order. -/
def isArrayIndexKey (k : String) : Bool :=
  isNumericKey k && toString (parseDigits k) = k && parseDigits k < 4294967295

/-- `Object.keys` enumeration order on a record modelled in insertion
order: array-index keys ascending, then the remaining keys as inserted. -/
def jsKeys (ps : ParamRecord) : List String :=
  let ks := ps.map (fun p => p.1)
  insortBy (fun a b => parseDigits a < parseDigits b)
      (ks.filter isArrayIndexKey) ++
    ks.filter (fun k => !isArrayIndexKey k)

/-- `^<([a-zA-Z0-9_]+)>$`: the placeholder-token pattern; returns the
referenced name. -/
def placeholderName (s : String) : Option String :=
  match s.toList with
  | '<' :: rest =>
    (match rest.reverse with
     | '>' :: revName =>
       let name := revName.reverse
       if !name.isEmpty && name.all isIdentChar then some (String.mk name)
       else none
     | _ => none)
  | _ => none

/-- The placeholder resolution step shared by the conversion and its
specification: a string value of the exact form `<name>` is replaced by the
value of the key it references when that key exists. -/
def resolvePlaceholder (ps : ParamRecord) (v : Option PValue) : Option PValue :=
  match v with
  | some (PValue.str s) =>
    (match placeholderName s with
     | some nm => (match recLookup ps nm with
                   | some w => some w
                   | none => v)
     | none => v)
  | _ => v

/-- `PostgresAdapter.convertNamedToPositionalParams` (lines 133-170):
purely-numeric keys are parsed to integers and sorted ascending, each value
read back at the canonical decimal string of the parsed integer (with
placeholder resolution); then the remaining keys sorted lexically, their
values appended.  `none` models `undefined` entries. -/
def convertNamedToPositionalParams (ps : ParamRecord) : List (Option PValue) :=
  let ks := jsKeys ps
  let numericKeys := insortBy (fun a b => a < b)
    ((ks.filter isNumericKey).map parseDigits)
  let namedKeys := insortBy lexLt (ks.filter (fun k => !isNumericKey k))
  numericKeys.map (fun n => resolvePlaceholder ps (recLookup ps (toString n))) ++
    namedKeys.map (fun k => recLookup ps k)

/-- Modelled from the spec's words for the conversion claim: "the array
consisting of the values of the purely-numeric keys in ascending numeric
order — with any string value of the exact form `<name>` replaced by the
value of the named key it references when that key exists — followed by the
values of the remaining (non-numeric) keys in lexical (alphabetical)
order".  Values are read at the keys themselves. -/
def specConvertNamedToPositional (ps : ParamRecord) : List (Option PValue) :=
  let ks := jsKeys ps
  let numericKeys := insortBy (fun a b => parseDigits a < parseDigits b)
    (ks.filter isNumericKey)
  let namedKeys := insortBy lexLt (ks.filter (fun k => !isNumericKey k))
  numericKeys.map (fun k => resolvePlaceholder ps (recLookup ps k)) ++
    namedKeys.map (fun k => recLookup ps k)

example :
    convertNamedToPositionalParams
      [("1", PValue.str "a"), ("2", PValue.str "b"), ("name", PValue.str "c")] =
    [some (PValue.str "a"), some (PValue.str "b"), some (PValue.str "c")] := by
  decide

example :
    convertNamedToPositionalParams
      [("1", PValue.str "<tenant_id>"), ("tenant_id", PValue.str "t-1")] =
    [some (PValue.str "t-1"), some (PValue.str "t-1")] := by decide

/-- JavaScript runtime values as they appear in result rows
(`Record<string, unknown>`): primitives, `null`, `undefined`, arrays and
plain objects. -/
inductive JSValue where
  | vnull
  | vundef
  | num (n : Int)
  | str (s : String)
  | bool (b : Bool)
  | arr (xs : List JSValue)
  | obj (fields : List (String × JSValue))

/-- The JS `typeof` operator on these values (`typeof null` and
`typeof []` are both `"object"`). -/
def jsTypeof : JSValue → String
  | JSValue.vnull => "object"
  | JSValue.vundef => "undefined"
  | JSValue.num _ => "number"
  | JSValue.str _ => "string"
  | JSValue.bool _ => "boolean"
  | JSValue.arr _ => "object"
  | JSValue.obj _ => "object"

/-- The tag assigned to one row value by `anonymizeResults`: `"null"` for
`null`, `"array"` for arrays, otherwise `typeof value`. -/
def maskValue (v : JSValue) : String :=
  match v with
  | JSValue.vnull => "null"
  | JSValue.arr _ => "array"
  | w => jsTypeof w

/-- `anonymizeResults` of the query route (`ask` module, lines 263-276):
replace every value of every row by its tag; an empty row list is returned
as-is. -/
def anonymizeResults (rows : List (List (String × JSValue))) :
    List (List (String × String)) :=
  match rows with
  | [] => []
  | _ => rows.map (fun row => row.map (fun kv => (kv.1, maskValue kv.2)))

/-- The five coarse type tags named by the spec. -/
def coarseTags : List String := ["number", "string", "boolean", "array", "null"]

/-- An error value thrown by an execution attempt (only its `message` is
read by the retry loop; the identity of the error object is preserved by
value equality here). -/
structure JsError where
  message : String
deriving DecidableEq, Repr

/-- JS truthiness filter on an optional string field spread into a request
body: an absent or empty string is omitted. -/
def truthyStr : Option String → Option String
  | some s => if s = "" then none else some s
  | none => none

/-- JS truthiness filter on the optional `max_retry` number (0 is falsy). -/
def truthyNat : Option Nat → Option Nat
  | some n => if n = 0 then none else some n
  | none => none

/-- The observable body of one POST to the generation endpoint `/query`
made by `ask`: the fields that vary across attempts (`last_error`,
`previous_sql`), plus the constant `question` and `max_retry` fields.  The
remaining body fields (tenant settings, database, dialect) are constant
across attempts of one call and irrelevant to the retry claims. -/
structure QueryPost where
  question : String
  lastErrorField : Option String
  previousSqlField : Option String
  maxRetryField : Option Nat
deriving DecidableEq, Repr

/-- The body `ask` posts to `/query` given the current repair hints. -/
def mkQueryPost (question : String) (maxRetryOpt : Option Nat)
    (lastError previousSql : Option String) : QueryPost :=
  { question := question,
    lastErrorField := truthyStr lastError,
    previousSqlField := truthyStr previousSql,
    maxRetryField := truthyNat maxRetryOpt }

/-- The retry loop of `ask` (query route, lines 73-251) specialised to an
execution that fails on every attempt: iteration at attempt `a` posts
`/query` (hints per JS truthiness), obtains SQL `gen a`, fails with
`err a`; with no remaining budget the error is rethrown, otherwise the
hints for the next attempt are the failed attempt's error message and SQL.
Returns the ordered list of `/query` posts and the error finally thrown. -/
def askAllFailGo (question : String) (maxRetryOpt : Option Nat)
    (gen : Nat → String) (err : Nat → JsError) :
    Nat → Nat → Option String → Option String → List QueryPost × JsError
  | attempt, 0, lastError, previousSql =>
    ([mkQueryPost question maxRetryOpt lastError previousSql], err attempt)
  | attempt, remaining + 1, lastError, previousSql =>
    let e := err attempt
    let later := askAllFailGo question maxRetryOpt gen err (attempt + 1)
      remaining (some e.message) (some (gen attempt))
    (mkQueryPost question maxRetryOpt lastError previousSql :: later.1,
      later.2)

/-- `ask` with `maxRetry = maxRetryOpt ?? 0` and an always-failing
execution: starts at attempt 0 with the caller-supplied hints. -/
def askAllFail (question : String) (maxRetryOpt : Option Nat)
    (lastErrorOpt previousSqlOpt : Option String)
    (gen : Nat → String) (err : Nat → JsError) : List QueryPost × JsError :=
  askAllFailGo question maxRetryOpt gen err 0 (maxRetryOpt.getD 0)
    lastErrorOpt previousSqlOpt

/-- The chart note and whether a chart-generation call happens, from the
success path of `ask` (lines 150-214): a `/chart` (or `/vizspec`) POST is
made only when at least one row was returned; otherwise the envelope
carries the no-rows note. -/
def chartDecision (rows : List (List (String × JSValue))) : Bool × Option String :=
  if rows.length = 0 then (false, some "Query returned no rows.")
  else (true, none)

/-- The `QueryEngine` registry state: two insertion-ordered maps (adapters
and metadata) and the optional default database name
(`src/core/query-engine.ts`, lines 25-36).  Adapters are opaque to the
registry, hence the type parameter. -/
structure EngineState (α : Type) where
  databases : List (String × α)
  databaseMetadata : List (String × DbMetadata)
  defaultDatabase : Option String
deriving DecidableEq, Repr

/-- The freshly constructed engine. -/
def emptyEngine (α : Type) : EngineState α :=
  { databases := [], databaseMetadata := [], defaultDatabase := none }

/-- JS `Map.prototype.set`: replace in place when the key exists, else
append. -/
def mapSet (m : List (String × β)) (k : String) (v : β) : List (String × β) :=
  match m with
  | [] => [(k, v)]
  | (k', v') :: rest =>
    if k' = k then (k', v) :: rest else (k', v') :: mapSet rest k v

/-- JS `Map.prototype.get` (`none` = `undefined`). -/
def mapGet (m : List (String × β)) (k : String) : Option β :=
  match m with
  | [] => none
  | (k', v) :: rest => if k' = k then some v else mapGet rest k

/-- `QueryEngine.attachDatabase` (lines 30-36): unconditional `Map.set` on
both maps, and the default database is taken when the current default is
falsy (`undefined` or the empty string). -/
def attachDatabase (e : EngineState α) (name : String) (adapter : α)
    (metadata : DbMetadata) : EngineState α :=
  { databases := mapSet e.databases name adapter,
    databaseMetadata := mapSet e.databaseMetadata name metadata,
    defaultDatabase :=
      match e.defaultDatabase with
      | none => some name
      | some d => if d = "" then some name else some d }

/-- `QueryEngine.getDefaultDatabase` (lines 60-62). -/
def getDefaultDatabase (e : EngineState α) : Option String :=
  e.defaultDatabase

/-- Fold a sequence of attachments over the fresh engine. -/
def attachAll (l : List (String × α × DbMetadata)) : EngineState α :=
  l.foldl (fun e t => attachDatabase e t.1 t.2.1 t.2.2) (emptyEngine α)

deriving instance DecidableEq for Except

/-- The metadata used by the relational tenant-isolation scenarios. -/
def mdPgTenant : DbMetadata :=
  { dialect := Dialect.postgres, tenantFieldName := some "tenant_id",
    tenantFieldType := none, enforceTenantIsolation := none }

/-- The metadata used by the columnar tenant-isolation scenarios. -/
def mdChTenant : DbMetadata :=
  { dialect := Dialect.clickhouse, tenantFieldName := some "tenant_id",
    tenantFieldType := some "String", enforceTenantIsolation := some true }

/-- C1: against the claim (and the adapters' own test suites), the
adjacency-regex extraction of both `validateQueryTables` implementations
does treat the keyword argument of `EXTRACT(unit FROM expr)` as a table
reference: with allow-list `public.sales` (resp. `sales`), the statement
`SELECT EXTRACT(MONTH FROM created_at) AS month FROM sales` is rejected
with an error naming the function argument `created_at`, not accepted. -/
theorem thmC1_fromFunctionArgumentFlagged :
    pgValidateQueryTables (pgMkConfig none (some ["public.sales"]))
        "SELECT EXTRACT(MONTH FROM created_at) AS month FROM sales".toList =
      Except.error (pgDenyMsg "public" "created_at") ∧
    chValidateQueryTables (chMkConfig (some ["sales"]))
        "SELECT EXTRACT(MONTH FROM created_at) AS month FROM sales".toList =
      Except.error (chDenyMsg "created_at") ∧
    pgExtractRefs "public"
        "SELECT EXTRACT(MONTH FROM created_at) AS month FROM sales".toList =
      [("public", "created_at"), ("public", "sales")] := by
  refine ⟨by decide, by decide, by decide⟩

/-- C5: against the claim (and the engine's own test suite), the
tenant-isolation rewrite writes `params[tenantField] = tenantId` before the
dialect branch and before the already-present check, so the caller's
parameter mapping is mutated in the relational case and even when the
tenant field already occurs in the SQL. -/
theorem thmC5_paramsMutatedBeyondColumnar :
    (ensureTenantIsolation "SELECT * FROM users".toList [] mdPgTenant
        "t-123").2 = [("tenant_id", PValue.str "t-123")] ∧
    (ensureTenantIsolation
        "SELECT * FROM users WHERE tenant_id = 'other-tenant'".toList []
        mdPgTenant "t-123").2 = [("tenant_id", PValue.str "t-123")] ∧
    ([("tenant_id", PValue.str "t-123")] : ParamRecord) ≠ [] := by
  refine ⟨by decide, by decide, by decide⟩

/-- C9 counterexample: a row containing a plain-object value (for example a
JSON column) is masked with the JS `typeof` tag `"object"`, which is not
one of the five coarse tags the claim allows. -/
theorem thmC9_counterexample :
    ¬ (∀ row ∈ anonymizeResults [[("payload", JSValue.obj [])]],
        ∀ kv ∈ row, kv.2 ∈ coarseTags) := by
  intro h
  have hmem := h [("payload", "object")] (by decide) ("payload", "object")
    (by decide)
  exact absurd hmem (by decide)

/-- C10 counterexample: attaching a second database under an existing name
replaces both the adapter and the metadata entry for that name, so registry
entries are not write-once. -/
theorem thmC10_counterexample :
    (mapGet (attachDatabase (attachDatabase (emptyEngine Nat) "db1" 1
        mdPgTenant) "db1" 2 mdChTenant).databases "db1" = some 2) ∧
    (mapGet (attachDatabase (attachDatabase (emptyEngine Nat) "db1" 1
        mdPgTenant) "db1" 2 mdChTenant).databaseMetadata "db1" =
      some mdChTenant) ∧
    (2 : Nat) ≠ 1 ∧ mdChTenant ≠ mdPgTenant := by
  refine ⟨by decide, by decide, by decide, by decide⟩

/-- C8 counterexample: a purely-numeric key in non-canonical decimal form
(`"007"`) is parsed to `7` and its value is read back at the canonical key
`"7"`, which is absent, so the conversion yields `[undefined]` instead of
the claimed `["a"]`. -/
theorem thmC8_counterexample :
    convertNamedToPositionalParams [("007", PValue.str "a")] = [none] ∧
    specConvertNamedToPositional [("007", PValue.str "a")] =
      [some (PValue.str "a")] ∧
    (none : Option PValue) ≠ some (PValue.str "a") := by
  refine ⟨by decide, by decide, by decide⟩

/-- The generation oracle of the C6 counterexample run. -/
def c6gen : Nat → String := fun _ => "SELECT 1"

/-- The execution failure oracle of the C6 counterexample run: the first
attempt fails with an empty error message. -/
def c6err : Nat → JsError := fun i => if i = 0 then { message := "" }
  else { message := "boom" }

/-- C6 counterexample: with `maxRetry = 1` and a first execution failure
whose error message is the empty string (falsy in JS), the retry's `/query`
body omits `last_error`, so the retry does not carry the previous attempt's
error message. -/
theorem thmC6_counterexample :
    (askAllFail "q" (some 1) none none c6gen c6err).1.get? 1 =
      some { question := "q", lastErrorField := none,
             previousSqlField := some "SELECT 1", maxRetryField := some 1 } ∧
    (none : Option String) ≠ some "" := by
  refine ⟨by decide, by decide⟩

/-- Recognizer for the adapter-internal allow-list check step. -/
def stepIsAllowCheck : Step → Bool
  | Step.allowCheck _ => true
  | _ => false

/-- Recognizer for the dry-run validate step (an `EXPLAIN`-prefixed client
call). -/
def stepIsExplainCall : Step → Bool
  | Step.clientCall sq => "EXPLAIN ".toList.isPrefixOf sq
  | _ => false

/-- Recognizer for the tenant-rewrite step. -/
def stepIsRewrite : Step → Bool
  | Step.tenantRewrite _ _ => true
  | _ => false

/-- Does the allow-list check step occur strictly before the dry-run
validate step in the trace (the order the claim asserts)? -/
def allowCheckBeforeValidate (tr : List Step) : Bool :=
  match List.findIdx? stepIsAllowCheck tr, List.findIdx? stepIsExplainCall tr with
  | some i, some j => decide (i < j)
  | _, _ => false

/-- The concrete execution-request trace used by the C7 counterexample. -/
def c7trace : List Step :=
  (validateAndExecuteT (some mdPgTenant)
    (pgMkConfig none (some ["public.users"])) (fun _ => Except.ok ())
    "SELECT * FROM users".toList [] "t-1").1

/-- C7 counterexample: in a concrete execution request with an allow-list
configured, both the allow-list check and the adapter validate (EXPLAIN)
step occur, but the allow-list check comes after the validate step, not
before it as claimed. -/
theorem thmC7_counterexample :
    allowCheckBeforeValidate c7trace = false ∧
    c7trace.any stepIsAllowCheck = true ∧
    c7trace.any stepIsExplainCall = true := by
  refine ⟨by decide, by decide, by decide⟩

theorem stringContains_iff {a : String} {l : List String} :
    l.contains a = true ↔ a ∈ l :=
  List.elem_iff

theorem pgCheckRefs_ok_iff (ks : List String) (refs : List (String × String)) :
    pgCheckRefs ks refs = Except.ok () ↔
      ∀ r ∈ refs, pgTableKey r.1 r.2 ∈ ks := by
  induction refs with
  | nil => simp [pgCheckRefs]
  | cons x rest ih =>
    by_cases hx : ks.contains (pgTableKey x.1 x.2) = true
    · simp [pgCheckRefs, hx, ih, stringContains_iff.mp hx]
    · simp only [pgCheckRefs, hx]
      simp only [Bool.false_eq_true, if_false]
      constructor
      · intro h; exact absurd h (by simp)
      · intro h
        exact absurd (stringContains_iff.mpr (h x (by simp))) hx

theorem pgCheckRefs_error (ks : List String) (refs : List (String × String))
    (r : String × String)
    (h : refs.find? (fun x => !ks.contains (pgTableKey x.1 x.2)) = some r) :
    pgCheckRefs ks refs = Except.error (pgDenyMsg r.1 r.2) := by
  induction refs with
  | nil => simp [List.find?] at h
  | cons x rest ih =>
    by_cases hx : ks.contains (pgTableKey x.1 x.2) = true
    · have hmem := stringContains_iff.mp hx
      rw [List.find?_cons_of_neg _ (by simp [hmem])] at h
      simp [pgCheckRefs, hmem]
      exact ih h
    · have hnm : pgTableKey x.1 x.2 ∉ ks := fun hm =>
        hx (stringContains_iff.mpr hm)
      rw [List.find?_cons_of_pos _ (by simp [hnm])] at h
      cases h
      simp [pgCheckRefs, hnm]

theorem chCheckRefs_ok_iff (ks : List String) (refs : List String) :
    chCheckRefs ks refs = Except.ok () ↔ ∀ t ∈ refs, t ∈ ks := by
  induction refs with
  | nil => simp [chCheckRefs]
  | cons x rest ih =>
    by_cases hx : ks.contains x = true
    · simp [chCheckRefs, hx, ih, stringContains_iff.mp hx]
    · simp only [chCheckRefs, hx]
      simp only [Bool.false_eq_true, if_false]
      constructor
      · intro h; exact absurd h (by simp)
      · intro h
        exact absurd (stringContains_iff.mpr (h x (by simp))) hx

theorem chCheckRefs_error (ks : List String) (refs : List String) (t : String)
    (h : refs.find? (fun x => !ks.contains x) = some t) :
    chCheckRefs ks refs = Except.error (chDenyMsg t) := by
  induction refs with
  | nil => simp [List.find?] at h
  | cons x rest ih =>
    by_cases hx : ks.contains x = true
    · have hmem := stringContains_iff.mp hx
      rw [List.find?_cons_of_neg _ (by simp [hmem])] at h
      simp [chCheckRefs, hmem]
      exact ih h
    · have hnm : x ∉ ks := fun hm => hx (stringContains_iff.mpr hm)
      rw [List.find?_cons_of_pos _ (by simp [hnm])] at h
      cases h
      simp [chCheckRefs, hnm]

/-- C2: with a (normalized) non-empty allow-list configured, an adapter's
`execute` reaches the underlying client call exactly when every table
reference its extraction finds in the SQL is a member of the allow-list
(schema-qualified keys for the relational adapter, bare names for the
columnar adapter); on failure the error names the first disallowed
reference in extraction order; with an unset or empty allow-list the
validation is a no-op and `execute` always reaches the client. -/
theorem thmC2_allowListGate (pgcfg : PgConfig)
    (pgAllowed : List (String × String)) (chcfg : ChConfig)
    (chAllowed : List String) (client : List Char → Except String Unit)
    (sql : List Char)
    (hpg : pgcfg.allowedTables = some pgAllowed) (hpgne : pgAllowed ≠ [])
    (hch : chcfg.allowedTables = some chAllowed) (hchne : chAllowed ≠ []) :
    ((Step.clientCall sql ∈ (pgExecuteT pgcfg client sql).1) ↔
      ∀ r ∈ pgExtractRefs pgcfg.defaultSchema sql,
        pgTableKey r.1 r.2 ∈ pgAllowed.map (fun t => pgTableKey t.1 t.2)) ∧
    (∀ r : String × String,
      (pgExtractRefs pgcfg.defaultSchema sql).find?
          (fun x => !(pgAllowed.map (fun t => pgTableKey t.1 t.2)).contains
            (pgTableKey x.1 x.2)) = some r →
      (pgExecuteT pgcfg client sql).2 = Except.error (pgDenyMsg r.1 r.2)) ∧
    ((Step.clientCall sql ∈ (chExecuteT chcfg client sql).1) ↔
      ∀ t ∈ chExtractRefs sql, t ∈ chAllowed) ∧
    (∀ t : String,
      (chExtractRefs sql).find? (fun x => !chAllowed.contains x) = some t →
      (chExecuteT chcfg client sql).2 = Except.error (chDenyMsg t)) ∧
    (∀ cfg : PgConfig, cfg.allowedTables = none ∨ cfg.allowedTables = some [] →
      (Step.clientCall sql ∈ (pgExecuteT cfg client sql).1) ∧
      (pgExecuteT cfg client sql).2 = client sql) ∧
    (∀ cfg : ChConfig, cfg.allowedTables = none ∨ cfg.allowedTables = some [] →
      (Step.clientCall sql ∈ (chExecuteT cfg client sql).1) ∧
      (chExecuteT cfg client sql).2 = client sql) := by
  have hpgv : pgValidateQueryTables pgcfg sql =
      pgCheckRefs (pgAllowed.map (fun t => pgTableKey t.1 t.2))
        (pgExtractRefs pgcfg.defaultSchema sql) := by
    rw [pgValidateQueryTables, hpg]
    simp [List.length_eq_zero, hpgne]
  have hchv : chValidateQueryTables chcfg sql =
      chCheckRefs chAllowed (chExtractRefs sql) := by
    rw [chValidateQueryTables, hch]
    simp [List.length_eq_zero, hchne]
  refine ⟨?_, ?_, ?_, ?_, ?_, ?_⟩
  · rw [pgExecuteT, hpg, hpgv]
    cases hres : pgCheckRefs (pgAllowed.map (fun t => pgTableKey t.1 t.2))
        (pgExtractRefs pgcfg.defaultSchema sql) with
    | error e =>
      constructor
      · intro habs; simp at habs
      · intro hall
        have hok := (pgCheckRefs_ok_iff _ _).mpr hall
        rw [hres] at hok; exact absurd hok (by simp)
    | ok u =>
      cases u
      constructor
      · intro _; exact (pgCheckRefs_ok_iff _ _).mp hres
      · intro _; simp
  · intro r hfind
    rw [pgExecuteT, hpg, hpgv, pgCheckRefs_error _ _ r hfind]
  · rw [chExecuteT, hch, hchv]
    cases hres : chCheckRefs chAllowed (chExtractRefs sql) with
    | error e =>
      constructor
      · intro habs; simp at habs
      · intro hall
        have hok := (chCheckRefs_ok_iff _ _).mpr hall
        rw [hres] at hok; exact absurd hok (by simp)
    | ok u =>
      cases u
      constructor
      · intro _; exact (chCheckRefs_ok_iff _ _).mp hres
      · intro _; simp
  · intro t hfind
    rw [chExecuteT, hch, hchv, chCheckRefs_error _ _ t hfind]
  · rintro cfg (hc | hc)
    · rw [pgExecuteT, hc]; simp
    · rw [pgExecuteT, hc]
      simp [pgValidateQueryTables, hc]
  · rintro cfg (hc | hc)
    · rw [chExecuteT, hc]; simp
    · rw [chExecuteT, hc]
      simp [chValidateQueryTables, hc]

/-- Witness for C2: a Postgres adapter allow-listed to `public.users` and a
ClickHouse adapter allow-listed to `users` both reach the client on
`SELECT * FROM users`. -/
theorem thmC2_witness :
    (Step.clientCall "SELECT * FROM users".toList ∈
      (pgExecuteT (pgMkConfig none (some ["public.users"]))
        (fun _ => Except.ok ()) "SELECT * FROM users".toList).1) ∧
    (Step.clientCall "SELECT * FROM users".toList ∈
      (chExecuteT (chMkConfig (some ["users"]))
        (fun _ => Except.ok ()) "SELECT * FROM users".toList).1) := by
  have h := thmC2_allowListGate (pgMkConfig none (some ["public.users"]))
    [("public", "users")] (chMkConfig (some ["users"])) ["users"]
    (fun _ => Except.ok ()) "SELECT * FROM users".toList
    (by decide) (by decide) (by decide) (by decide)
  exact ⟨h.1.mpr (by decide), h.2.2.1.mpr (by decide)⟩

theorem occursIn_of_isPrefixOf {n h : List Char} (hp : n <+: h) :
    occursIn n h = true := by
  cases h with
  | nil =>
    have : n = [] := List.prefix_nil.mp hp
    simp [occursIn, this]
  | cons c rest =>
    rw [occursIn]
    have : n.isPrefixOf (c :: rest) = true := by
      rw [List.isPrefixOf_iff_prefix]; exact hp
    simp [this]

theorem occursIn_append_right {n b : List Char} (a : List Char)
    (hb : occursIn n b = true) : occursIn n (a ++ b) = true := by
  induction a with
  | nil => simpa using hb
  | cons c rest ih =>
    rw [List.cons_append, occursIn]
    simp [ih]

theorem occursIn_of_middle (a b : List Char) (n : List Char) :
    occursIn n (a ++ (n ++ b)) = true :=
  occursIn_append_right a (occursIn_of_isPrefixOf (List.prefix_append n b))

theorem recSet_recSet (ps : ParamRecord) (k : String) (v : PValue) :
    recSet (recSet ps k v) k v = recSet ps k v := by
  induction ps with
  | nil => simp [recSet]
  | cons p rest ih =>
    cases p with
    | mk k' v' =>
      by_cases hk : k' = k
      · subst hk; simp [recSet]
      · simp [recSet, hk, ih]

/-- The tenant predicate synthesized by the rewrite: a literal-interpolated
equality for the relational dialect, a typed named-parameter placeholder
(type defaulting to `String`) for the columnar dialect. -/
def tenantPredicateFor (md : DbMetadata) (f tid : String) : List Char :=
  match md.dialect with
  | Dialect.clickhouse =>
    f.toList ++ " = \x7b".toList ++ f.toList ++ ":".toList ++
      (md.tenantFieldType.getD "String").toList ++ "\x7d".toList
  | Dialect.postgres =>
    f.toList ++ " = '".toList ++ tid.toList ++ "'".toList

theorem tenantPredicateFor_eq_append (md : DbMetadata) (f tid : String) :
    ∃ tail, tenantPredicateFor md f tid = f.toList ++ tail := by
  cases hd : md.dialect
  · exact ⟨" = '".toList ++ tid.toList ++ "'".toList,
      by simp [tenantPredicateFor, hd]⟩
  · exact ⟨" = \x7b".toList ++ f.toList ++ ":".toList ++
      (md.tenantFieldType.getD "String").toList ++ "\x7d".toList,
      by simp [tenantPredicateFor, hd]⟩

theorem ensureTenantIsolation_skip (sql : List Char) (params : ParamRecord)
    (md : DbMetadata) (tid : String)
    (h : md.tenantFieldName = none ∨ md.tenantFieldName = some "" ∨
      md.enforceTenantIsolation = some false) :
    ensureTenantIsolation sql params md tid = (sql, params) := by
  rcases h with h | h | h
  · simp [ensureTenantIsolation, h]
  · simp [ensureTenantIsolation, h]
  · rcases hf : md.tenantFieldName with _ | f
    · simp [ensureTenantIsolation, hf]
    · simp [ensureTenantIsolation, hf, h]

theorem ensureTenantIsolation_present (sql : List Char)
    (params : ParamRecord) (md : DbMetadata) (tid : String) (f : String)
    (hf : md.tenantFieldName = some f) (hne : f ≠ "")
    (hen : md.enforceTenantIsolation ≠ some false)
    (hocc : occursIn (lowText f.toList) (lowText sql) = true) :
    ensureTenantIsolation sql params md tid =
      (sql, recSet params f (PValue.str tid)) := by
  have hocc' : occursIn (lowText f.data) (lowText sql) = true := hocc
  simp [ensureTenantIsolation, hf, hne, hen, hocc']

theorem ensureTenantIsolation_synth (sql : List Char)
    (params : ParamRecord) (md : DbMetadata) (tid : String) (f : String)
    (hf : md.tenantFieldName = some f) (hne : f ≠ "")
    (hen : md.enforceTenantIsolation ≠ some false)
    (hocc : occursIn (lowText f.toList) (lowText sql) = false) :
    ensureTenantIsolation sql params md tid =
      ((match findWhereSplit none sql with
        | some (pre, m, post) =>
          pre ++ m ++ " ".toList ++ tenantPredicateFor md f tid ++
            " AND ".toList ++ post
        | none => sql ++ " WHERE ".toList ++ tenantPredicateFor md f tid),
       recSet params f (PValue.str tid)) := by
  have hocc' : occursIn (lowText f.data) (lowText sql) = false := hocc
  rcases hsplit : findWhereSplit none sql with _ | ⟨pre, m, post⟩
  · cases hd : md.dialect <;>
      simp [ensureTenantIsolation, tenantPredicateFor, hf, hne, hen, hocc',
        hsplit, hd]
  · cases hd : md.dialect <;>
      simp [ensureTenantIsolation, tenantPredicateFor, hf, hne, hen, hocc',
        hsplit, hd]

theorem occursIn_lowf_appended (md : DbMetadata) (f tid : String)
    (sql : List Char) :
    occursIn (lowText f.toList)
      (lowText (sql ++ " WHERE ".toList ++ tenantPredicateFor md f tid)) =
      true := by
  obtain ⟨tail, ht⟩ := tenantPredicateFor_eq_append md f tid
  rw [ht]
  simp only [lowText, List.map_append, List.append_assoc]
  exact occursIn_append_right _ (occursIn_append_right _
    (occursIn_of_isPrefixOf (List.prefix_append _ _)))

theorem occursIn_lowf_spliced (md : DbMetadata) (f tid : String)
    (pre m post : List Char) :
    occursIn (lowText f.toList)
      (lowText (pre ++ m ++ " ".toList ++ tenantPredicateFor md f tid ++
        " AND ".toList ++ post)) = true := by
  obtain ⟨tail, ht⟩ := tenantPredicateFor_eq_append md f tid
  rw [ht]
  simp only [lowText, List.map_append, List.append_assoc]
  exact occursIn_append_right _ (occursIn_append_right _
    (occursIn_append_right _
      (occursIn_of_isPrefixOf (List.prefix_append _ _))))

/-- C4: applying the tenant-isolation rewrite a second time, to the SQL
text and parameter mapping produced by the first application and with the
same tenant id, changes nothing: the same SQL and the same mapping come
back. -/
theorem thmC4_rewriteIdempotent (sql : List Char) (params : ParamRecord)
    (md : DbMetadata) (tid : String) :
    ensureTenantIsolation (ensureTenantIsolation sql params md tid).1
        (ensureTenantIsolation sql params md tid).2 md tid =
      ensureTenantIsolation sql params md tid := by
  rcases hf : md.tenantFieldName with _ | f
  · rw [ensureTenantIsolation_skip sql params md tid (Or.inl hf)]
    exact ensureTenantIsolation_skip sql params md tid (Or.inl hf)
  · by_cases hne : f = ""
    · have hskip : md.tenantFieldName = some "" := by rw [hf, hne]
      rw [ensureTenantIsolation_skip sql params md tid (Or.inr (Or.inl hskip))]
      exact ensureTenantIsolation_skip sql params md tid (Or.inr (Or.inl hskip))
    · by_cases hen : md.enforceTenantIsolation = some false
      · rw [ensureTenantIsolation_skip sql params md tid (Or.inr (Or.inr hen))]
        exact ensureTenantIsolation_skip sql params md tid (Or.inr (Or.inr hen))
      · by_cases hocc : occursIn (lowText f.toList) (lowText sql) = true
        · rw [ensureTenantIsolation_present sql params md tid f hf hne hen hocc]
          rw [ensureTenantIsolation_present sql _ md tid f hf hne hen hocc]
          rw [recSet_recSet]
        · have hocc' : occursIn (lowText f.toList) (lowText sql) = false := by
            simpa using hocc
          have e1 := ensureTenantIsolation_synth sql params md tid f hf hne
            hen hocc'
          rcases hsplit : findWhereSplit none sql with _ | ⟨pre, m, post⟩
          · rw [hsplit] at e1
            simp only at e1
            rw [e1]
            rw [ensureTenantIsolation_present _ _ md tid f hf hne hen
              (occursIn_lowf_appended md f tid sql)]
            rw [recSet_recSet]
          · rw [hsplit] at e1
            simp only at e1
            rw [e1]
            rw [ensureTenantIsolation_present _ _ md tid f hf hne hen
              (occursIn_lowf_spliced md f tid pre m post)]
            rw [recSet_recSet]

/-- C3: with a tenant field configured, isolation not disabled, and the
field absent (case-insensitively) from the SQL, the rewrite synthesizes the
dialect predicate (relational: interpolated literal; columnar: typed
placeholder with type defaulting to `String`) and splices it right after
the first `WHERE` keyword joined with `AND`, or appends a new `WHERE`
clause when no `WHERE` keyword occurs; in particular
`SELECT * FROM users` with relational field `tenant_id` and tenant id
`t-123` becomes `SELECT * FROM users WHERE tenant_id = 't-123'`. -/
theorem thmC3_tenantPredicateSynthesis (sql : List Char)
    (params : ParamRecord) (md : DbMetadata) (tid : String) (f : String)
    (hf : md.tenantFieldName = some f) (hne : f ≠ "")
    (hen : md.enforceTenantIsolation ≠ some false)
    (hocc : occursIn (lowText f.toList) (lowText sql) = false) :
    ((whereKeywordFound sql = true →
      ∃ pre m post, findWhereSplit none sql = some (pre, m, post) ∧
        (ensureTenantIsolation sql params md tid).1 =
          pre ++ m ++ " ".toList ++ tenantPredicateFor md f tid ++
            " AND ".toList ++ post) ∧
     (whereKeywordFound sql = false →
      (ensureTenantIsolation sql params md tid).1 =
        sql ++ " WHERE ".toList ++ tenantPredicateFor md f tid)) ∧
    (ensureTenantIsolation "SELECT * FROM users".toList [] mdPgTenant
      "t-123").1 =
      "SELECT * FROM users WHERE tenant_id = 't-123'".toList := by
  refine ⟨⟨?_, ?_⟩, by decide⟩
  · intro hw
    rcases hsplit : findWhereSplit none sql with _ | ⟨pre, m, post⟩
    · rw [whereKeywordFound, hsplit] at hw
      simp at hw
    · refine ⟨pre, m, post, rfl, ?_⟩
      have e := ensureTenantIsolation_synth sql params md tid f hf hne hen hocc
      rw [hsplit] at e
      simp only at e
      rw [e]
  · intro hw
    rcases hsplit : findWhereSplit none sql with _ | ⟨pre, m, post⟩
    · have e := ensureTenantIsolation_synth sql params md tid f hf hne hen hocc
      rw [hsplit] at e
      simp only at e
      rw [e]
    · rw [whereKeywordFound, hsplit] at hw
      simp at hw

/-- Witness for C3 at the spec's scenario input. -/
theorem thmC3_witness :
    (ensureTenantIsolation "SELECT * FROM users".toList [] mdPgTenant
      "t-123").1 =
      "SELECT * FROM users".toList ++ " WHERE ".toList ++
        tenantPredicateFor mdPgTenant "tenant_id" "t-123" :=
  (thmC3_tenantPredicateSynthesis "SELECT * FROM users".toList [] mdPgTenant
    "t-123" "tenant_id" (by decide) (by decide) (by decide) (by decide)).1.2
    (by decide)

theorem askAllFailGo_length (q : String) (mro : Option Nat)
    (gen : Nat → String) (err : Nat → JsError) :
    ∀ (r a : Nat) (le ps : Option String),
      (askAllFailGo q mro gen err a r le ps).1.length = r + 1 := by
  intro r
  induction r with
  | zero => intro a le ps; simp [askAllFailGo]
  | succ n ih => intro a le ps; simp [askAllFailGo, ih]

theorem askAllFailGo_final (q : String) (mro : Option Nat)
    (gen : Nat → String) (err : Nat → JsError) :
    ∀ (r a : Nat) (le ps : Option String),
      (askAllFailGo q mro gen err a r le ps).2 = err (a + r) := by
  intro r
  induction r with
  | zero => intro a le ps; simp [askAllFailGo]
  | succ n ih =>
    intro a le ps
    have := ih (a + 1) (some (err a).message) (some (gen a))
    rw [askAllFailGo]
    simp only [this]
    congr 1
    omega

theorem askAllFailGo_head (q : String) (mro : Option Nat)
    (gen : Nat → String) (err : Nat → JsError) (a r : Nat)
    (le ps : Option String) :
    (askAllFailGo q mro gen err a r le ps).1.get? 0 =
      some (mkQueryPost q mro le ps) := by
  cases r <;> simp [askAllFailGo]

theorem askAllFailGo_get (q : String) (mro : Option Nat)
    (gen : Nat → String) (err : Nat → JsError) :
    ∀ (r a : Nat) (le ps : Option String) (j : Nat), j < r →
      (askAllFailGo q mro gen err a r le ps).1.get? (j + 1) =
        some (mkQueryPost q mro (some (err (a + j)).message)
          (some (gen (a + j)))) := by
  intro r
  induction r with
  | zero => intro a le ps j h; exact absurd h (Nat.not_lt_zero j)
  | succ n ih =>
    intro a le ps j h
    cases j with
    | zero =>
      rw [askAllFailGo]
      simp only [List.get?_cons_succ]
      rw [askAllFailGo_head]
      simp
    | succ k =>
      have hk : k < n := by omega
      rw [askAllFailGo]
      simp only [List.get?_cons_succ]
      have := ih (a + 1) (some (err a).message) (some (gen a)) k hk
      rw [this]
      have h1 : a + 1 + k = a + (k + 1) := by omega
      rw [h1]

/-- C6 (amended): with `maxRetry = N` and execution failing on every
attempt, `/query` is posted exactly `N + 1` times, the error finally thrown
is exactly the last attempt's error, and — provided the failed attempts'
error messages and generated SQL texts are non-empty (JS truthiness; empty
ones are omitted from the body) — retry `j + 1` carries attempt `j`'s error
message and SQL as `last_error` and `previous_sql`. -/
theorem thmC6_retryBudget (q : String) (mro : Option Nat)
    (le0 ps0 : Option String) (gen : Nat → String) (err : Nat → JsError)
    (N : Nat) (hN : mro.getD 0 = N)
    (hmsg : ∀ i, (err i).message ≠ "") (hgen : ∀ i, gen i ≠ "") :
    (askAllFail q mro le0 ps0 gen err).1.length = N + 1 ∧
    (askAllFail q mro le0 ps0 gen err).2 = err N ∧
    (∀ j, j < N → (askAllFail q mro le0 ps0 gen err).1.get? (j + 1) =
      some { question := q, lastErrorField := some (err j).message,
             previousSqlField := some (gen j),
             maxRetryField := truthyNat mro }) := by
  refine ⟨?_, ?_, ?_⟩
  · rw [askAllFail, hN]
    exact askAllFailGo_length q mro gen err N 0 le0 ps0
  · rw [askAllFail, hN]
    have := askAllFailGo_final q mro gen err N 0 le0 ps0
    simpa using this
  · intro j hj
    rw [askAllFail, hN]
    have hg := askAllFailGo_get q mro gen err N 0 le0 ps0 j hj
    simp only [Nat.zero_add] at hg
    rw [hg]
    simp [mkQueryPost, truthyStr, hmsg j, hgen j]

/-- Witness for C6 at `maxRetry = 2` with constant non-empty failure
message and generated SQL. -/
theorem thmC6_witness :
    (askAllFail "q" (some 2) none none (fun _ => "SELECT 1")
      (fun _ => { message := "boom" })).1.length = 3 ∧
    (askAllFail "q" (some 2) none none (fun _ => "SELECT 1")
      (fun _ => { message := "boom" })).2 = { message := "boom" } :=
  have h := thmC6_retryBudget "q" (some 2) none none (fun _ => "SELECT 1")
    (fun _ => { message := "boom" }) 2 (by decide)
    (fun _ => by show ("boom" : String) ≠ ""; decide)
    (fun _ => by show ("SELECT 1" : String) ≠ ""; decide)
  ⟨h.1, h.2.1⟩

/-- C7 (amended): within one execution request the steps run in the order:
tenant-isolation rewrite (exactly once, first), then the adapter `validate`
(an EXPLAIN client call on the rewritten SQL), then — inside the adapter's
`execute` — the allow-list validation, then the client execution call with
the rewritten SQL.  The rewritten SQL is the text submitted to both
`validate` and `execute`; the allow-list check therefore completes after
the dry-run validate, not before it. -/
theorem thmC7_stepOrder (md : DbMetadata) (cfg : PgConfig)
    (client : List Char → Except String Unit) (sql : List Char)
    (params : ParamRecord) (tid : String) (fsql : List Char)
    (ts : List (String × String))
    (hf : fsql = (ensureTenantIsolation sql params md tid).1)
    (hcfg : cfg.allowedTables = some ts) :
    ((validateAndExecuteT (some md) cfg client sql params tid).1.countP
        stepIsRewrite = 1) ∧
    ((validateAndExecuteT (some md) cfg client sql params tid).1.get? 0 =
      some (Step.tenantRewrite sql fsql)) ∧
    (client ("EXPLAIN ".toList ++ fsql) = Except.ok () →
     pgValidateQueryTables cfg fsql = Except.ok () →
     validateAndExecuteT (some md) cfg client sql params tid =
       ([Step.tenantRewrite sql fsql,
         Step.clientCall ("EXPLAIN ".toList ++ fsql),
         Step.allowCheck fsql, Step.clientCall fsql], client fsql)) := by
  subst hf
  simp only [validateAndExecuteT, pgValidateT]
  cases hcl : client ("EXPLAIN ".toList ++
      (ensureTenantIsolation sql params md tid).1) with
  | error e =>
    refine ⟨?_, ?_, ?_⟩
    · simp [stepIsRewrite]
    · simp
    · intro hok
      simp at hok
  | ok u =>
    cases u
    simp only [pgExecuteT, hcfg]
    cases hvq : pgValidateQueryTables cfg
        (ensureTenantIsolation sql params md tid).1 with
    | error e2 =>
      refine ⟨?_, ?_, ?_⟩
      · simp [stepIsRewrite]
      · simp
      · intro _ hok2
        simp at hok2
    | ok u2 =>
      cases u2
      refine ⟨?_, ?_, ?_⟩
      · simp [stepIsRewrite]
      · simp
      · intro _ _
        rfl

/-- Witness for C7: the amended ordering at the concrete trace of the
counterexample configuration. -/
theorem thmC7_witness :
    validateAndExecuteT (some mdPgTenant)
        (pgMkConfig none (some ["public.users"])) (fun _ => Except.ok ())
        "SELECT * FROM users".toList [] "t-1" =
      ([Step.tenantRewrite "SELECT * FROM users".toList
          (ensureTenantIsolation "SELECT * FROM users".toList [] mdPgTenant
            "t-1").1,
        Step.clientCall ("EXPLAIN ".toList ++
          (ensureTenantIsolation "SELECT * FROM users".toList [] mdPgTenant
            "t-1").1),
        Step.allowCheck (ensureTenantIsolation "SELECT * FROM users".toList
          [] mdPgTenant "t-1").1,
        Step.clientCall (ensureTenantIsolation "SELECT * FROM users".toList
          [] mdPgTenant "t-1").1], Except.ok ()) :=
  (thmC7_stepOrder mdPgTenant (pgMkConfig none (some ["public.users"]))
    (fun _ => Except.ok ()) "SELECT * FROM users".toList [] "t-1" _
    [("public", "users")] rfl (by decide)).2.2 rfl (by decide)

theorem insertBy_map_parse (x : String) (l : List String) :
    insortBy.insertBy (fun a b => a < b) (parseDigits x)
        (l.map parseDigits) =
      (insortBy.insertBy (fun a b => parseDigits a < parseDigits b) x
        l).map parseDigits := by
  induction l with
  | nil => rfl
  | cons y ys ih =>
    by_cases h : parseDigits y < parseDigits x
    · simp [insortBy.insertBy, h, ih]
    · simp [insortBy.insertBy, h]

theorem insortBy_map_parse (l : List String) :
    insortBy (fun a b => a < b) (l.map parseDigits) =
      (insortBy (fun a b => parseDigits a < parseDigits b) l).map
        parseDigits := by
  induction l with
  | nil => rfl
  | cons y ys ih =>
    simp only [List.map_cons, insortBy]
    rw [ih]
    exact insertBy_map_parse y
      (insortBy (fun a b => parseDigits a < parseDigits b) ys)

theorem mem_insertBy {α : Type} {lt : α → α → Bool} {x y : α} :
    ∀ {l : List α}, y ∈ insortBy.insertBy lt x l → y = x ∨ y ∈ l := by
  intro l
  induction l with
  | nil =>
    intro h
    simp only [insortBy.insertBy, List.mem_singleton] at h
    exact Or.inl h
  | cons z zs ih =>
    intro h
    simp only [insortBy.insertBy] at h
    by_cases hz : lt z x = true
    · rw [if_pos hz] at h
      rcases List.mem_cons.mp h with h1 | h1
      · exact Or.inr (List.mem_cons.mpr (Or.inl h1))
      · rcases ih h1 with h2 | h2
        · exact Or.inl h2
        · exact Or.inr (List.mem_cons.mpr (Or.inr h2))
    · rw [if_neg hz] at h
      rcases List.mem_cons.mp h with h1 | h1
      · exact Or.inl h1
      · exact Or.inr h1

theorem mem_insortBy {α : Type} {lt : α → α → Bool} {y : α} :
    ∀ {l : List α}, y ∈ insortBy lt l → y ∈ l := by
  intro l
  induction l with
  | nil => intro h; simp [insortBy] at h
  | cons z zs ih =>
    intro h
    rw [insortBy] at h
    rcases mem_insertBy h with h' | h'
    · simp [h']
    · exact List.mem_cons_of_mem z (ih h')

/-- C8 (amended): the conversion parses each purely-numeric key to an
integer and reads the value back at the canonical decimal form of that
integer; when every purely-numeric key is already canonical, the result is
exactly the array the claim describes — numeric-key values ascending (with
`<name>` placeholder resolution) followed by the remaining keys' values in
lexical order. -/
theorem thmC8_conversionSpec (ps : ParamRecord)
    (hc : ∀ k ∈ jsKeys ps, isNumericKey k = true →
      toString (parseDigits k) = k) :
    convertNamedToPositionalParams ps = specConvertNamedToPositional ps := by
  unfold convertNamedToPositionalParams specConvertNamedToPositional
  simp only []
  congr 1
  rw [insortBy_map_parse, List.map_map]
  apply List.map_congr_left
  intro k hk
  have hk' : k ∈ (jsKeys ps).filter isNumericKey := mem_insortBy hk
  have hmem : k ∈ jsKeys ps := List.mem_of_mem_filter hk'
  have hnum : isNumericKey k = true := List.of_mem_filter hk'
  simp [Function.comp, hc k hmem hnum]

/-- Witness for C8 at the spec's round-trip example. -/
theorem thmC8_witness :
    convertNamedToPositionalParams
        [("1", PValue.str "a"), ("2", PValue.str "b"),
         ("name", PValue.str "c")] =
      specConvertNamedToPositional
        [("1", PValue.str "a"), ("2", PValue.str "b"),
         ("name", PValue.str "c")] ∧
    specConvertNamedToPositional
        [("1", PValue.str "a"), ("2", PValue.str "b"),
         ("name", PValue.str "c")] =
      [some (PValue.str "a"), some (PValue.str "b"),
       some (PValue.str "c")] :=
  ⟨thmC8_conversionSpec _ (by decide), by decide⟩

theorem anonymizeResults_eq_map (rows : List (List (String × JSValue))) :
    anonymizeResults rows =
      rows.map (fun row => row.map (fun kv => (kv.1, maskValue kv.2))) := by
  cases rows <;> rfl

/-- Values whose `anonymizeResults` tag is one of the five claimed coarse
tags: `null`, numbers, strings, booleans and arrays. -/
def isCoarseValue : JSValue → Bool
  | JSValue.vnull => true
  | JSValue.num _ => true
  | JSValue.str _ => true
  | JSValue.bool _ => true
  | JSValue.arr _ => true
  | _ => false

theorem maskValue_mem_extended (v : JSValue) :
    maskValue v ∈ coarseTags ++ ["object", "undefined"] := by
  cases v <;> simp [maskValue, jsTypeof, coarseTags]

theorem maskValue_mem_coarse (v : JSValue) (h : isCoarseValue v = true) :
    maskValue v ∈ coarseTags := by
  cases v <;> simp_all [maskValue, jsTypeof, coarseTags, isCoarseValue]

/-- C9 (amended): `anonymizeResults` replaces every row value with a type
tag, never a raw value: `"null"` for `null`, `"array"` for arrays, and the
JS `typeof` tag otherwise.  Every tag lies in the five claimed coarse tags
extended with `"object"`/`"undefined"`, and lies in the five-tag set
exactly as claimed whenever every row value is a number, string, boolean,
array or null — a plain-object or `undefined` value is tagged
`"object"`/`"undefined"` instead. -/
theorem thmC9_tagsCoarse (rows : List (List (String × JSValue))) :
    (∀ row ∈ anonymizeResults rows, ∀ kv ∈ row,
      kv.2 ∈ coarseTags ++ ["object", "undefined"]) ∧
    ((∀ row ∈ rows, ∀ kv ∈ row, isCoarseValue kv.2 = true) →
      ∀ row ∈ anonymizeResults rows, ∀ kv ∈ row, kv.2 ∈ coarseTags) := by
  constructor
  · intro row hrow kv hkv
    rw [anonymizeResults_eq_map] at hrow
    rcases List.mem_map.mp hrow with ⟨r0, hr0, rfl⟩
    rcases List.mem_map.mp hkv with ⟨kv0, hkv0, rfl⟩
    exact maskValue_mem_extended kv0.2
  · intro hall row hrow kv hkv
    rw [anonymizeResults_eq_map] at hrow
    rcases List.mem_map.mp hrow with ⟨r0, hr0, rfl⟩
    rcases List.mem_map.mp hkv with ⟨kv0, hkv0, rfl⟩
    exact maskValue_mem_coarse kv0.2 (hall r0 hr0 kv0 hkv0)

/-- Witness for C9 on a row of primitive values. -/
theorem thmC9_witness :
    ∀ row ∈ anonymizeResults [[("n", JSValue.num 1), ("s", JSValue.str "x"),
      ("z", JSValue.vnull)]], ∀ kv ∈ row, kv.2 ∈ coarseTags :=
  (thmC9_tagsCoarse _).2 (by decide)

/-- The adapter component of the most recent attachment under a name
(later attachments override earlier ones). -/
def lastAttachedA {α : Type} (l : List (String × α × DbMetadata))
    (name : String) : Option α :=
  match l with
  | [] => none
  | (n, a, _) :: rest =>
    match lastAttachedA rest name with
    | some x => some x
    | none => if n = name then some a else none

/-- The metadata component of the most recent attachment under a name. -/
def lastAttachedM {α : Type} (l : List (String × α × DbMetadata))
    (name : String) : Option DbMetadata :=
  match l with
  | [] => none
  | (n, _, m) :: rest =>
    match lastAttachedM rest name with
    | some x => some x
    | none => if n = name then some m else none

/-- Fold attachments over an arbitrary starting engine. -/
def attachAllFrom {α : Type} (e : EngineState α)
    (l : List (String × α × DbMetadata)) : EngineState α :=
  l.foldl (fun e t => attachDatabase e t.1 t.2.1 t.2.2) e

theorem mapGet_mapSet {β : Type} (m : List (String × β)) (k k' : String)
    (v : β) :
    mapGet (mapSet m k v) k' = if k = k' then some v else mapGet m k' := by
  induction m with
  | nil =>
    by_cases h : k = k' <;> simp [mapSet, mapGet, h]
  | cons p rest ih =>
    obtain ⟨k0, v0⟩ := p
    by_cases h0 : k0 = k
    · subst h0
      by_cases h1 : k0 = k' <;> simp [mapSet, mapGet, h1]
    · by_cases h1 : k0 = k'
      · subst h1
        have hk : ¬k = k0 := fun h => h0 h.symm
        simp [mapSet, mapGet, h0, hk]
      · simp [mapSet, mapGet, h0, h1, ih]

theorem attachAllFrom_databases {α : Type}
    (l : List (String × α × DbMetadata)) :
    ∀ (e : EngineState α) (name : String),
      mapGet (attachAllFrom e l).databases name =
        (match lastAttachedA l name with
         | some a => some a
         | none => mapGet e.databases name) := by
  induction l with
  | nil => intro e name; simp [attachAllFrom, lastAttachedA]
  | cons t rest ih =>
    intro e name
    obtain ⟨n, a, m⟩ := t
    have hstep : attachAllFrom e ((n, a, m) :: rest) =
        attachAllFrom (attachDatabase e n a m) rest := rfl
    rw [hstep, ih]
    rw [lastAttachedA]
    cases hl : lastAttachedA rest name with
    | some x => simp
    | none =>
      simp only []
      have : mapGet (attachDatabase e n a m).databases name =
          if n = name then some a else mapGet e.databases name := by
        simp [attachDatabase, mapGet_mapSet]
      rw [this]
      by_cases hn : n = name <;> simp [hn]

theorem attachAllFrom_metadata {α : Type}
    (l : List (String × α × DbMetadata)) :
    ∀ (e : EngineState α) (name : String),
      mapGet (attachAllFrom e l).databaseMetadata name =
        (match lastAttachedM l name with
         | some x => some x
         | none => mapGet e.databaseMetadata name) := by
  induction l with
  | nil => intro e name; simp [attachAllFrom, lastAttachedM]
  | cons t rest ih =>
    intro e name
    obtain ⟨n, a, m⟩ := t
    have hstep : attachAllFrom e ((n, a, m) :: rest) =
        attachAllFrom (attachDatabase e n a m) rest := rfl
    rw [hstep, ih]
    rw [lastAttachedM]
    cases hl : lastAttachedM rest name with
    | some x => simp
    | none =>
      simp only []
      have : mapGet (attachDatabase e n a m).databaseMetadata name =
          if n = name then some m else mapGet e.databaseMetadata name := by
        simp [attachDatabase, mapGet_mapSet]
      rw [this]
      by_cases hn : n = name <;> simp [hn]

theorem attachAllFrom_default {α : Type}
    (l : List (String × α × DbMetadata)) :
    ∀ (e : EngineState α) (d : String), e.defaultDatabase = some d →
      d ≠ "" → (attachAllFrom e l).defaultDatabase = some d := by
  induction l with
  | nil => intro e d hd _; exact hd
  | cons t rest ih =>
    intro e d hd hne
    obtain ⟨n, a, m⟩ := t
    have hstep : attachAllFrom e ((n, a, m) :: rest) =
        attachAllFrom (attachDatabase e n a m) rest := rfl
    rw [hstep]
    apply ih _ d _ hne
    simp [attachDatabase, hd, hne]

/-- C10 (amended): over any attachment sequence, the first attached
database's name (provided non-empty; an empty name is falsy and is
replaced) is and remains the implicit default, and the registry lookup for
each name returns the adapter and metadata of the most recent attachment
under that name — re-attaching an existing name replaces its entry
(last-write-wins) rather than being write-once; entries are never otherwise
mutated. -/
theorem thmC10_registry {α : Type} (n0 : String) (a0 : α) (m0 : DbMetadata)
    (rest : List (String × α × DbMetadata)) (h0 : n0 ≠ "") :
    (attachAll ((n0, a0, m0) :: rest)).defaultDatabase = some n0 ∧
    (∀ name, mapGet (attachAll ((n0, a0, m0) :: rest)).databases name =
      lastAttachedA ((n0, a0, m0) :: rest) name) ∧
    (∀ name,
      mapGet (attachAll ((n0, a0, m0) :: rest)).databaseMetadata name =
        lastAttachedM ((n0, a0, m0) :: rest) name) := by
  have hstep : attachAll ((n0, a0, m0) :: rest) =
      attachAllFrom (attachDatabase (emptyEngine α) n0 a0 m0) rest := rfl
  refine ⟨?_, ?_, ?_⟩
  · rw [hstep]
    apply attachAllFrom_default rest _ n0 _ h0
    simp [attachDatabase, emptyEngine]
  · intro name
    have h := attachAllFrom_databases ((n0, a0, m0) :: rest)
      (emptyEngine α) name
    have hempty : attachAllFrom (emptyEngine α) ((n0, a0, m0) :: rest) =
        attachAll ((n0, a0, m0) :: rest) := rfl
    rw [hempty] at h
    rw [h]
    cases hl : lastAttachedA ((n0, a0, m0) :: rest) name <;>
      simp [emptyEngine, mapGet]
  · intro name
    have h := attachAllFrom_metadata ((n0, a0, m0) :: rest)
      (emptyEngine α) name
    have hempty : attachAllFrom (emptyEngine α) ((n0, a0, m0) :: rest) =
        attachAll ((n0, a0, m0) :: rest) := rfl
    rw [hempty] at h
    rw [h]
    cases hl : lastAttachedM ((n0, a0, m0) :: rest) name <;>
      simp [emptyEngine, mapGet]

/-- Witness for C10 on a three-attachment sequence that re-attaches the
first name. -/
theorem thmC10_witness :
    (attachAll [("db1", (1 : Nat), mdPgTenant), ("db2", 2, mdChTenant),
      ("db1", 3, mdChTenant)]).defaultDatabase = some "db1" ∧
    mapGet (attachAll [("db1", (1 : Nat), mdPgTenant),
      ("db2", 2, mdChTenant), ("db1", 3, mdChTenant)]).databases "db1" =
      lastAttachedA [("db1", (1 : Nat), mdPgTenant), ("db2", 2, mdChTenant),
        ("db1", 3, mdChTenant)] "db1" := by
  have h := thmC10_registry "db1" (1 : Nat) mdPgTenant
    [("db2", 2, mdChTenant), ("db1", 3, mdChTenant)] (by decide)
  exact ⟨h.1, h.2.1 "db1"⟩
